import Mathlib

/-
Verification development for the determinism-test harness (src/src/main.rs).

Machine integers are modelled as Nat with explicit reduction mod 2^32 where the
source uses wrapping u32 arithmetic.  32-bit IEEE-754 floats appear in the source
only as (a) raw bit patterns serialized into the hash and (b) keys of the
`partial_cmp` sort comparison; they are therefore modelled by their bit patterns
(a Nat below 2^32) together with the standard order embedding of non-NaN
patterns into Int, which agrees with IEEE comparison (and with Rust
`f32::partial_cmp`) on all non-NaN values and is `none` when an operand is NaN.
-/

namespace Harness

-- ===== f32 bit-pattern model =====

/-- Exponent field (bits 23..30) of an IEEE-754 single-precision bit pattern. -/
def f32Exp (w : Nat) : Nat := w / 2 ^ 23 % 256

/-- Mantissa field (bits 0..22) of an IEEE-754 single-precision bit pattern. -/
def f32Mant (w : Nat) : Nat := w % 2 ^ 23

/-- Sign bit (bit 31) of an IEEE-754 single-precision bit pattern. -/
def f32Sign (w : Nat) : Nat := w / 2 ^ 31 % 2

/-- A single-precision pattern is NaN iff its exponent is all ones and its
mantissa is nonzero. -/
def f32IsNaN (w : Nat) : Bool := f32Exp w == 255 && f32Mant w != 0

/-- Order key of a non-NaN single-precision pattern: sign-magnitude unfolded
into Int.  For non-NaN patterns `a < b` as floats iff `f32Key a < f32Key b`,
and `a == b` as floats iff `f32Key a = f32Key b` (so +0.0 and -0.0 share key 0). -/
def f32Key (w : Nat) : Int :=
  if f32Sign w == 1 then -((w % 2 ^ 31 : Nat) : Int) else ((w % 2 ^ 31 : Nat) : Int)

/-- Three-way integer comparison, the shape Rust `partial_cmp` takes on the
defined (non-NaN) cases: Less, Greater, else Equal. -/
def intCompare (a b : Int) : Ordering :=
  if a < b then Ordering.lt else if b < a then Ordering.gt else Ordering.eq

/-- Rust `f32::partial_cmp` on bit patterns: `none` when either operand is NaN,
otherwise the three-way comparison of the order keys. -/
def f32PartialCmp (a b : Nat) : Option Ordering :=
  if f32IsNaN a || f32IsNaN b then none else some (intCompare (f32Key a) (f32Key b))

-- ===== Isometry record and its byte serialization (src/src/main.rs lines 200-205, 226-230) =====

/-- The `Isometry` record of the source: three translation components followed by
four rotation components, each a 32-bit float stored here as its bit pattern. -/
structure Isometry where
  tx : Nat
  ty : Nat
  tz : Nat
  rx : Nat
  ry : Nat
  rz : Nat
  rw : Nat
deriving DecidableEq

/-- Little-endian byte serialization of one 32-bit pattern. -/
def f32Bytes (w : Nat) : List Nat :=
  [w % 256, w / 256 % 256, w / 65536 % 256, w / 16777216 % 256]

/-- `bytemuck::bytes_of` on the repr(C) `Isometry`: the 28-byte record, field
order fixed, no padding. -/
def isometryBytes (p : Isometry) : List Nat :=
  f32Bytes p.tx ++ f32Bytes p.ty ++ f32Bytes p.tz ++
    f32Bytes p.rx ++ f32Bytes p.ry ++ f32Bytes p.rz ++ f32Bytes p.rw

-- ===== djb2 hash (src/src/main.rs lines 240-245) =====

/-- One step of the source loop body:
`hash = (hash << 5).wrapping_add(hash).wrapping_add(byte as u32)`,
with 4294967296 = 2^32. -/
def djb2Step (hash byte : Nat) : Nat :=
  ((hash * 32 % 4294967296 + hash) % 4294967296 + byte) % 4294967296

/-- `djb2_hash` of the source: fold `djb2Step` over the byte slice. -/
def djb2_hash (hash : Nat) (data : List Nat) : Nat :=
  data.foldl djb2Step hash

-- ===== The fallible sort of update_hash (src/src/main.rs lines 222-223) =====

/-- The sort comparator of `update_hash`:
`a.0.x.partial_cmp(&b.0.x)` on the x translation components. -/
def cmpX (a b : Isometry) : Option Ordering := f32PartialCmp a.tx b.tx

/-- Insert one element into an already sorted prefix, placing it before the
first strictly greater element (hence after equal ones, giving the stable
order of Rust `sort_by`); `none` as soon as one comparison is undefined,
modelling the `.expect("Comparison failed")` panic. -/
def insertPose (x : Isometry) : List Isometry → Option (List Isometry)
  | [] => some [x]
  | y :: ys =>
    match cmpX x y with
    | none => none
    | some Ordering.lt => some (x :: y :: ys)
    | some Ordering.eq => (insertPose x ys).map (fun zs => y :: zs)
    | some Ordering.gt => (insertPose x ys).map (fun zs => y :: zs)

/-- Stable insertion sort threading the possible comparison failure. -/
def sortAux : List Isometry → List Isometry → Option (List Isometry)
  | acc, [] => some acc
  | acc, x :: xs => (insertPose x acc).bind (fun acc2 => sortAux acc2 xs)

/-- `transforms_vec.sort_by(|a, b| a.0.x.partial_cmp(&b.0.x).expect(..))`:
the stable sort of the pose list by ascending x, `none` exactly when the run
panics because a comparison involving a NaN x was performed. -/
def sortPoses (l : List Isometry) : Option (List Isometry) := sortAux [] l

-- ===== The hash reduction of update_hash (src/src/main.rs lines 220-231) =====

/-- The body loop of `update_hash`: starting from 5381, fold each body's
28 serialized bytes into the accumulator. -/
def hashBodies (sorted : List Isometry) : Nat :=
  sorted.foldl (fun h p => djb2_hash h (isometryBytes p)) 5381

/-- The fingerprint `update_hash` computes from a pose list: `none` when the
sort panics, otherwise the djb2 fold over the sorted list. -/
def update_hash_value (l : List Isometry) : Option Nat :=
  (sortPoses l).map hashBodies

/-- Modelled from the spec: the reduction step stated in the spec's words,
`hash = hash*33 + byte` with 32-bit wraparound arithmetic. -/
def specFoldStep (hash byte : Nat) : Nat := (hash * 33 + byte) % 4294967296

/-- Modelled from the spec: seed 5381, then for each body in the given order
serialize its pose as the 28-byte record and fold every byte via `specFoldStep`. -/
def specHash (sorted : List Isometry) : Nat :=
  sorted.foldl (fun h p => (isometryBytes p).foldl specFoldStep h) 5381

-- ===== Constants (src/src/main.rs lines 29-32) =====

def STEP_COUNT : Nat := 500

def ROWS : Nat := 30

def COLUMNS : Nat := 4

-- ===== The per-tick system update_hash (src/src/main.rs lines 207-238) =====

/-- The mutable state `update_hash` touches: the `Step` resource and the two
text spans. -/
structure HarnessState where
  step : Nat
  stepText : String
  hashText : String
deriving DecidableEq

/-- `format!("0x{:x}", hash)`: lowercase hexadecimal with a 0x prefix. -/
def hexDisplay (hash : Nat) : String := "0x" ++ (Nat.toDigits 16 hash).asString

/-- One invocation of the `update_hash` system on a pose list read from the
query: display the pre-increment step, increment, early-return once past the
horizon, otherwise sort (possibly panicking, modelled as `none`), hash and
display. -/
def update_hash (poses : List Isometry) (s : HarnessState) : Option HarnessState :=
  let t := Nat.repr s.step
  let n := s.step + 1
  if STEP_COUNT < n then
    some { step := n, stepText := t, hashText := s.hashText }
  else
    match sortPoses poses with
    | none => none
    | some sorted =>
      if n = STEP_COUNT then
        some { step := n, stepText := t,
               hashText := hexDisplay (hashBodies sorted) ++ " (step " ++ Nat.repr n ++ ")" }
      else
        some { step := n, stepText := t, hashText := hexDisplay (hashBodies sorted) }

/-- Iterate `update_hash` for a number of fixed ticks, the tick with index k
reading the pose list `seq k`. -/
def runTicks (seq : Nat → List Isometry) : Nat → HarnessState → Option HarnessState
  | 0, s => some s
  | k + 1, s => (update_hash (seq k) s).bind (runTicks seq k)

-- ===== Entities and the scene (src/src/main.rs lines 61-122, 181-198) =====

/-- `RigidBody::Static` or `RigidBody::Dynamic`. -/
inductive RBKind
  | static
  | dynamic
deriving DecidableEq

/-- One spawned entity, recording exactly the components the queries of
`update_hash` and `clear_scene` look at, plus the spawn translation.
Translations are exact rationals: every claim about the scene layout concerns
only which (column, row)-indexed expression each body's translation is, never
a rounded float value. -/
structure Entity where
  rigidBody : Option RBKind
  collider : Bool
  camera : Bool
  light : Bool
  revoluteJoint : Bool
  translation : Rat × Rat × Rat
deriving DecidableEq

/-- `let half_size = 0.5`. -/
def half_size : Rat := 0.5

/-- `let offset = 0.4 * half_size`. -/
def offset : Rat := 0.4 * half_size

/-- `let delta_x = 10.0 * half_size`. -/
def delta_x : Rat := 10 * half_size

/-- `let x_root = -0.5 * delta_x * (COLUMNS as f32 - 1.0)`. -/
def x_root : Rat := -0.5 * delta_x * ((COLUMNS : Rat) - 1)

/-- The directional light spawned by `setup_scene` (default transform). -/
def lightEntity : Entity :=
  { rigidBody := none, collider := false, camera := false, light := true,
    revoluteJoint := false, translation := (0, 0, 0) }

/-- The camera spawned by `setup_scene`, at (0, 12, 40). -/
def cameraEntity : Entity :=
  { rigidBody := none, collider := false, camera := true, light := false,
    revoluteJoint := false, translation := (0, 12, 40) }

/-- The static ground spawned by `setup_scene`: `RigidBody::Static` plus a
collider, at (0, -2, 0). -/
def groundEntity : Entity :=
  { rigidBody := some RBKind.static, collider := true, camera := false, light := false,
    revoluteJoint := false, translation := (0, -2, 0) }

/-- The dynamic box spawned for a given column and row:
`Transform::from_xyz(x + offset * row, half_size + 2.0 * half_size * row, 0.0)`
with `x = x_root + col * delta_x`, plus `RigidBody::Dynamic` and a collider. -/
def boxEntity (col row : Nat) : Entity :=
  { rigidBody := some RBKind.dynamic, collider := true, camera := false, light := false,
    revoluteJoint := false,
    translation := (x_root + (col : Rat) * delta_x + offset * (row : Rat),
                    half_size + 2 * half_size * (row : Rat), 0) }

/-- `setup_scene`, taking the shuffled column list as input (the shuffle itself
is an external randomness source; any permutation of `List.range COLUMNS` can
be produced): spawns the light, the camera, the ground, then for each column in
the given order its ROWS stacked boxes. -/
def setup_scene (cols : List Nat) : List Entity :=
  [lightEntity, cameraEntity, groundEntity] ++
    cols.flatMap (fun col => (List.range ROWS).map (boxEntity col))

/-- The world as far as the harness observes it: the spawned entities and the
`Step` resource. -/
structure World where
  entities : List Entity
  step : Nat
deriving DecidableEq

/-- The despawn query of `clear_scene`:
`Or<(With<RigidBody>, With<Collider>, With<RevoluteJoint>, With<Camera>)>`. -/
def participant (e : Entity) : Bool :=
  e.rigidBody.isSome || e.collider || e.revoluteJoint || e.camera

/-- `clear_scene`: set the step to 0 and despawn every entity matching the
participant query. -/
def clear_scene (w : World) : World :=
  { step := 0, entities := w.entities.filter (fun e => !participant e) }

/-- Spawning the scene into an existing world appends the new entities. -/
def spawnScene (w : World) (cols : List Nat) : World :=
  { w with entities := w.entities ++ setup_scene cols }

/-- The reset sequence wired in `main`: `(clear_scene, setup_scene).chain()`. -/
def resetScene (w : World) (cols : List Nat) : World :=
  spawnScene (clear_scene w) cols

/-- The pose query of `update_hash`:
`Query<(&Position, &Rotation), With<RigidBody>>` — every entity carrying the
`RigidBody` component (static or dynamic; the engine maintains a pose for each). -/
def rigidBodyQuery (entities : List Entity) : List Entity :=
  entities.filter (fun e => e.rigidBody.isSome)

-- ===== Collision pairs (src/src/main.rs lines 175-179) =====

/-- Whether two collision pairs name the same unordered body pair. -/
def samePair (p q : Nat × Nat) : Bool :=
  (p.1 == q.1 && p.2 == q.2) || (p.1 == q.2 && p.2 == q.1)

/-- Modelled from the spec: the engine primitive `remove_collision_pair`
("a queryable, mutable active-collision-pair set, exposing
removal-by-body-pair") — remove from the active set any pair between the two
given bodies, in either order; absent pairs are simply not found. -/
def remove_collision_pair (e1 e2 : Nat) (cs : List (Nat × Nat)) : List (Nat × Nat) :=
  cs.filter (fun p => !samePair p (e1, e2))

/-- `ignore_joint_collisions`: for every revolute joint, remove the collision
pair between its two referenced bodies. -/
def ignore_joint_collisions (joints : List (Nat × Nat)) (cs : List (Nat × Nat)) :
    List (Nat × Nat) :=
  joints.foldl (fun acc j => remove_collision_pair j.1 j.2 acc) cs

-- ===== Derived order relations used in the statements =====

/-- Ascending order of the x comparison keys (non-strict). -/
def keyLE (a b : Isometry) : Prop := f32Key a.tx ≤ f32Key b.tx

/-- Ascending order of the x comparison keys (strict). -/
def keyLT (a b : Isometry) : Prop := f32Key a.tx < f32Key b.tx

/-- A quiet-NaN x component (bit pattern 0x7fc00000), all other fields zero. -/
def nanPose : Isometry :=
  { tx := 2143289344, ty := 0, tz := 0, rx := 0, ry := 0, rz := 0, rw := 0 }

/-- A pose whose x bit pattern is 0 (the float +0.0), all other fields zero. -/
def pose0 : Isometry := { tx := 0, ty := 0, tz := 0, rx := 0, ry := 0, rz := 0, rw := 0 }

/-- A pose whose x bit pattern is 1 (a positive denormal), all other fields zero. -/
def pose1 : Isometry := { tx := 1, ty := 0, tz := 0, rx := 0, ry := 0, rz := 0, rw := 0 }

/-- A pose with x pattern 0 and y pattern 1065353216 (the float 1.0): same x as
`pose0`, different y. -/
def tiePose : Isometry :=
  { tx := 0, ty := 1065353216, tz := 0, rx := 0, ry := 0, rz := 0, rw := 0 }

set_option maxRecDepth 40000

-- ===== C9 =====

/-- C9: if the pose query yields zero bodies the computed hash is exactly the
seed 5381, because folding the djb2 step over an empty byte sequence returns
the accumulator unchanged. -/
theorem C9_empty_hash :
    update_hash_value ([] : List Isometry) = some 5381 ∧ ∀ h : Nat, djb2_hash h [] = h :=
  ⟨rfl, fun _ => rfl⟩

-- ===== C2 =====

/-- C2 counterexample: the claim says the static ground carries no rigid-body
tag and contributes nothing to the hash input; in fact the ground is spawned
with `RigidBody::Static` and therefore matches the hasher's `With<RigidBody>`
query, so it is part of the hash input set. -/
theorem C2_cex :
    groundEntity.rigidBody = some RBKind.static ∧
    groundEntity ∈ rigidBodyQuery (setup_scene [0, 1, 2, 3]) := by
  exact ⟨rfl, by decide⟩

/-- C2 (amended): the hash input set consists of every entity carrying the
`RigidBody` component — the static ground together with all dynamic boxes; the
light and the camera are excluded, and each included body contributes a
28-byte pose record. -/
theorem C2_query_includes_ground (cols : List Nat) :
    rigidBodyQuery (setup_scene cols) =
      groundEntity :: cols.flatMap (fun col => (List.range ROWS).map (boxEntity col)) ∧
    groundEntity.rigidBody = some RBKind.static ∧
    ∀ p : Isometry, (isometryBytes p).length = 28 := by
  refine ⟨?_, rfl, fun p => rfl⟩
  unfold rigidBodyQuery setup_scene
  rw [List.filter_append]
  have h1 : List.filter (fun e => e.rigidBody.isSome)
      [lightEntity, cameraEntity, groundEntity] = [groundEntity] := rfl
  have h2 : List.filter (fun e => e.rigidBody.isSome)
      (cols.flatMap fun col => (List.range ROWS).map (boxEntity col)) =
      cols.flatMap fun col => (List.range ROWS).map (boxEntity col) := by
    apply List.filter_eq_self.mpr
    intro e he
    obtain ⟨c, _, he2⟩ := List.mem_flatMap.mp he
    obtain ⟨r, _, rfl⟩ := List.mem_map.mp he2
    rfl
  rw [h1, h2]
  rfl

-- ===== C3 =====

/-- C3: any two shuffles of the column list produce the same multiset of
spawned entities — in particular the same multiset of spawn translations —
since each box is a function of its column and row index only; the shuffle
changes nothing but the creation sequence. -/
theorem C3_shuffle_layout (c1 c2 : List Nat)
    (h1 : c1.Perm (List.range COLUMNS)) (h2 : c2.Perm (List.range COLUMNS)) :
    (setup_scene c1).Perm (setup_scene c2) ∧
    ((setup_scene c1).map Entity.translation).Perm
      ((setup_scene c2).map Entity.translation) := by
  have hc : c1.Perm c2 := h1.trans h2.symm
  have hscene : (setup_scene c1).Perm (setup_scene c2) :=
    List.Perm.append_left _ (hc.flatMap_right fun col => (List.range ROWS).map (boxEntity col))
  exact ⟨hscene, hscene.map _⟩

/-- C3 witness: a concrete shuffle compared against the identity order. -/
theorem C3_witness :
    ([1, 0, 2, 3] : List Nat).Perm (List.range COLUMNS) ∧
    ((setup_scene [1, 0, 2, 3]).Perm (setup_scene [0, 1, 2, 3]) ∧
      ((setup_scene [1, 0, 2, 3]).map Entity.translation).Perm
        ((setup_scene [0, 1, 2, 3]).map Entity.translation)) :=
  ⟨by decide, C3_shuffle_layout [1, 0, 2, 3] [0, 1, 2, 3] (by decide) (by decide)⟩

-- ===== C7 =====

/-- C7 counterexample: the claim says a reset destroys the lighting; in fact
the light matches none of the despawn query's components, so after clearing
and rebuilding once from a fresh scene the world holds two light entities —
the old one survived. -/
theorem C7_cex :
    lightEntity ∈ (clear_scene (spawnScene (World.mk [] 0) [0, 1, 2, 3])).entities ∧
    ((resetScene (spawnScene (World.mk [] 0) [0, 1, 2, 3]) [0, 1, 2, 3]).entities.count
      lightEntity) = 2 := by
  exact ⟨by decide, by decide⟩

/-- C7 (amended): a reset trigger resets the step counter to 0, destroys every
entity carrying a rigid body, collider, joint or camera component — which
covers the camera, the ground and every box, but not the light, which
survives — and then re-invokes the scene builder, which spawns a fresh camera,
light, ground and boxes. -/
theorem C7_reset (w : World) (cols : List Nat) :
    (resetScene w cols).step = 0 ∧
    (∀ e, e ∈ (clear_scene w).entities ↔ e ∈ w.entities ∧ participant e = false) ∧
    participant cameraEntity = true ∧
    participant groundEntity = true ∧
    (∀ c r : Nat, participant (boxEntity c r) = true) ∧
    participant lightEntity = false ∧
    (resetScene w cols).entities = (clear_scene w).entities ++ setup_scene cols ∧
    cameraEntity ∈ setup_scene cols ∧ lightEntity ∈ setup_scene cols ∧
    groundEntity ∈ setup_scene cols := by
  refine ⟨rfl, ?_, rfl, rfl, fun c r => rfl, rfl, rfl, ?_, ?_, ?_⟩
  · intro e
    simp [clear_scene, List.mem_filter]
  · simp [setup_scene]
  · simp [setup_scene]
  · simp [setup_scene]

/-- C7 witness: the reset of a freshly built world has step 0. -/
theorem C7_witness :
    (resetScene (spawnScene (World.mk [] 0) [0, 1, 2, 3]) [2, 3, 0, 1]).step = 0 :=
  (C7_reset (spawnScene (World.mk [] 0) [0, 1, 2, 3]) [2, 3, 0, 1]).1

-- ===== C8 =====

/-- After folding all joint removals, the collision set is the original one
filtered by "matches no joint's body pair". -/
theorem ignore_eq_filter (joints cs : List (Nat × Nat)) :
    ignore_joint_collisions joints cs =
      cs.filter (fun p => !joints.any (fun j => samePair p j)) := by
  induction joints generalizing cs with
  | nil =>
    simp [ignore_joint_collisions]
  | cons j rest ih =>
    show ignore_joint_collisions rest (remove_collision_pair j.1 j.2 cs) = _
    rw [ih, remove_collision_pair, List.filter_filter]
    apply List.filter_congr
    intro p _
    simp only [List.any_cons, Bool.not_or]
    rw [Bool.and_comm]

/-- C8: for every revolute joint the filter removes the collision pair between
its two referenced bodies from the active set; the whole pass is idempotent,
and removing a pair that is not present leaves the set unchanged. -/
theorem C8_filter (joints cs : List (Nat × Nat)) :
    (∀ j ∈ joints, ∀ p ∈ ignore_joint_collisions joints cs, samePair p j = false) ∧
    ignore_joint_collisions joints (ignore_joint_collisions joints cs) =
      ignore_joint_collisions joints cs ∧
    ∀ a b : Nat, (∀ p ∈ cs, samePair p (a, b) = false) →
      remove_collision_pair a b cs = cs := by
  refine ⟨?_, ?_, ?_⟩
  · intro j hj p hp
    rw [ignore_eq_filter] at hp
    have hmem := List.mem_filter.mp hp
    have hany : joints.any (fun j2 => samePair p j2) = false := by
      cases hcase : joints.any (fun j2 => samePair p j2) with
      | false => rfl
      | true => rw [hcase] at hmem; exact absurd hmem.2 (by decide)
    exact Bool.eq_false_iff.mpr (List.any_eq_false.mp hany j hj)
  · simp only [ignore_eq_filter, List.filter_filter]
    apply List.filter_congr
    intro p _
    rw [Bool.and_self]
  · intro a b hnot
    apply List.filter_eq_self.mpr
    intro p hp
    rw [hnot p hp]
    rfl

/-- C8 witness: removing the absent pair (5, 6) from a set is a no-op. -/
theorem C8_witness : remove_collision_pair 5 6 [(1, 2)] = [(1, 2)] :=
  (C8_filter [] [(1, 2)]).2.2 5 6 (by decide)

-- ===== C10 =====

/-- C10: every successful tick of `update_hash` first displays the
pre-increment step value, then increments the counter by exactly one (hence
the counter never decreases and never re-reaches 0 through ticking), whether
or not the horizon has been exceeded; the counter returns to 0 through
`clear_scene`, which sets it to 0. -/
theorem C10_step_increment (poses : List Isometry) (s s2 : HarnessState)
    (h : update_hash poses s = some s2) :
    s2.stepText = Nat.repr s.step ∧ s2.step = s.step + 1 ∧ 0 < s2.step ∧
    ∀ w : World, (clear_scene w).step = 0 := by
  simp only [update_hash] at h
  split at h
  · cases h
    exact ⟨rfl, rfl, Nat.succ_pos _, fun w => rfl⟩
  · split at h
    · cases h
    · split at h
      · cases h
        exact ⟨rfl, rfl, Nat.succ_pos _, fun w => rfl⟩
      · cases h
        exact ⟨rfl, rfl, Nat.succ_pos _, fun w => rfl⟩

/-- C10 witness: the first tick on an empty pose list displays "0", steps the
counter to 1 and shows 0x1505 (= 5381). -/
theorem C10_witness :
    (HarnessState.mk 1 "0" "0x1505").stepText = Nat.repr (HarnessState.mk 0 "" "").step ∧
    (HarnessState.mk 1 "0" "0x1505").step = (HarnessState.mk 0 "" "").step + 1 ∧
    0 < (HarnessState.mk 1 "0" "0x1505").step ∧
    ∀ w : World, (clear_scene w).step = 0 :=
  C10_step_increment [] (HarnessState.mk 0 "" "") (HarnessState.mk 1 "0" "0x1505") (by decide)

-- ===== C5 =====

/-- C5: once the step counter has reached the horizon, every further tick
early-returns: no hash is computed (even an unsortable pose list cannot make
the tick fail) and the displayed hash text stays frozen while the counter
keeps counting. -/
theorem C5_frozen (seq : Nat → List Isometry) (k : Nat) :
    ∀ s : HarnessState, STEP_COUNT ≤ s.step →
      ∃ s2, runTicks seq k s = some s2 ∧ s2.hashText = s.hashText ∧
        s2.step = s.step + k := by
  induction k with
  | zero => exact fun s _ => ⟨s, rfl, rfl, rfl⟩
  | succ k ih =>
    intro s h
    have hgt : STEP_COUNT < s.step + 1 := Nat.lt_succ_of_le h
    have hu : update_hash (seq k) s =
        some (HarnessState.mk (s.step + 1) (Nat.repr s.step) s.hashText) := by
      simp only [update_hash]
      rw [if_pos hgt]
    obtain ⟨s2, hrun, hhash, hstep⟩ :=
      ih (HarnessState.mk (s.step + 1) (Nat.repr s.step) s.hashText) (Nat.le_succ_of_le h)
    refine ⟨s2, ?_, hhash, ?_⟩
    · show (update_hash (seq k) s).bind (runTicks seq k) = some s2
      rw [hu]
      exact hrun
    · rw [hstep]
      show s.step + 1 + k = s.step + (k + 1)
      omega

/-- C5 witness: three ticks from step 500 with an unsortable (double-NaN) pose
list succeed, leave the hash text unchanged and advance the counter to 503. -/
theorem C5_witness :
    STEP_COUNT ≤ (HarnessState.mk 500 "499" "0x1505 (step 500)").step ∧
    ∃ s2, runTicks (fun _ => [nanPose, nanPose]) 3
        (HarnessState.mk 500 "499" "0x1505 (step 500)") = some s2 ∧
      s2.hashText = (HarnessState.mk 500 "499" "0x1505 (step 500)").hashText ∧
      s2.step = (HarnessState.mk 500 "499" "0x1505 (step 500)").step + 3 :=
  ⟨by decide,
    C5_frozen (fun _ => [nanPose, nanPose]) 3
      (HarnessState.mk 500 "499" "0x1505 (step 500)") (by decide)⟩

-- ===== Facts about the comparator =====

/-- A defined three-way comparison returning Less means strictly less. -/
theorem intCompare_lt {a b : Int} (h : intCompare a b = Ordering.lt) : a < b := by
  unfold intCompare at h
  split at h
  · assumption
  · split at h
    · exact Ordering.noConfusion h
    · exact Ordering.noConfusion h

/-- A defined three-way comparison returning Equal means the right operand is
not above the left. -/
theorem le_of_intCompare_eq {a b : Int} (h : intCompare a b = Ordering.eq) : b ≤ a := by
  unfold intCompare at h
  split at h
  · exact Ordering.noConfusion h
  · split at h
    · exact Ordering.noConfusion h
    · omega

/-- A defined three-way comparison returning Greater means the right operand is
not above the left. -/
theorem le_of_intCompare_gt {a b : Int} (h : intCompare a b = Ordering.gt) : b ≤ a := by
  unfold intCompare at h
  split at h
  · exact Ordering.noConfusion h
  · split at h
    · omega
    · exact Ordering.noConfusion h

/-- The pose comparison fails as soon as the left x is NaN. -/
theorem cmpX_none_left (x y : Isometry) (h : f32IsNaN x.tx = true) : cmpX x y = none := by
  unfold cmpX f32PartialCmp
  rw [h]
  rfl

/-- The pose comparison fails as soon as the right x is NaN. -/
theorem cmpX_none_right (x y : Isometry) (h : f32IsNaN y.tx = true) : cmpX x y = none := by
  unfold cmpX f32PartialCmp
  rw [h]
  simp

/-- On NaN-free operands the pose comparison is the three-way key comparison. -/
theorem cmpX_some (x y : Isometry) (hx : f32IsNaN x.tx = false) (hy : f32IsNaN y.tx = false) :
    cmpX x y = some (intCompare (f32Key x.tx) (f32Key y.tx)) := by
  unfold cmpX f32PartialCmp
  rw [hx, hy]
  rfl

/-- A defined pose comparison determines its result as the key comparison. -/
theorem cmpX_defined {x y : Isometry} {o : Ordering} (h : cmpX x y = some o) :
    o = intCompare (f32Key x.tx) (f32Key y.tx) := by
  unfold cmpX f32PartialCmp at h
  split at h
  · exact Option.noConfusion h
  · injection h with h2
    exact h2.symm

-- ===== Facts about the fallible insertion =====

/-- A successful insertion returns a permutation of the element consed onto the
old list. -/
theorem insertPose_perm (x : Isometry) :
    ∀ (acc zs : List Isometry), insertPose x acc = some zs → zs.Perm (x :: acc) := by
  intro acc
  induction acc with
  | nil =>
    intro zs h
    injection h with h2
    subst h2
    exact List.Perm.refl _
  | cons y ys ih =>
    intro zs h
    unfold insertPose at h
    cases hc : cmpX x y with
    | none => rw [hc] at h; exact Option.noConfusion h
    | some o =>
      rw [hc] at h
      cases o with
      | lt =>
        injection h with h2
        subst h2
        exact List.Perm.refl _
      | eq =>
        cases hi : insertPose x ys with
        | none => rw [hi] at h; exact Option.noConfusion h
        | some zs2 =>
          rw [hi] at h
          injection h with h2
          subst h2
          exact ((ih zs2 hi).cons y).trans (List.Perm.swap x y ys)
      | gt =>
        cases hi : insertPose x ys with
        | none => rw [hi] at h; exact Option.noConfusion h
        | some zs2 =>
          rw [hi] at h
          injection h with h2
          subst h2
          exact ((ih zs2 hi).cons y).trans (List.Perm.swap x y ys)

/-- A successful insertion into a list sorted by ascending key stays sorted:
the element lands before the first strictly greater entry. -/
theorem insertPose_sorted (x : Isometry) :
    ∀ (acc zs : List Isometry), List.Pairwise keyLE acc →
      insertPose x acc = some zs → List.Pairwise keyLE zs := by
  intro acc
  induction acc with
  | nil =>
    intro zs _ h
    injection h with h2
    subst h2
    exact List.pairwise_singleton keyLE x
  | cons y ys ih =>
    intro zs hs h
    cases hs with
    | cons hy hys =>
      unfold insertPose at h
      cases hc : cmpX x y with
      | none => rw [hc] at h; exact Option.noConfusion h
      | some o =>
        rw [hc] at h
        have ho := cmpX_defined hc
        cases o with
        | lt =>
          injection h with h2
          subst h2
          have hxy : f32Key x.tx < f32Key y.tx := intCompare_lt ho.symm
          refine List.Pairwise.cons ?_ (List.Pairwise.cons hy hys)
          intro z hz
          rcases List.mem_cons.mp hz with rfl | hzys
          · exact le_of_lt hxy
          · exact le_trans (le_of_lt hxy) (hy z hzys)
        | eq =>
          cases hi : insertPose x ys with
          | none => rw [hi] at h; exact Option.noConfusion h
          | some zs2 =>
            rw [hi] at h
            injection h with h2
            subst h2
            have hyx : f32Key y.tx ≤ f32Key x.tx := le_of_intCompare_eq ho.symm
            refine List.Pairwise.cons ?_ (ih zs2 hys hi)
            intro z hz
            have hz2 : z ∈ x :: ys := (insertPose_perm x ys zs2 hi).mem_iff.mp hz
            rcases List.mem_cons.mp hz2 with rfl | hzys
            · exact hyx
            · exact hy z hzys
        | gt =>
          cases hi : insertPose x ys with
          | none => rw [hi] at h; exact Option.noConfusion h
          | some zs2 =>
            rw [hi] at h
            injection h with h2
            subst h2
            have hyx : f32Key y.tx ≤ f32Key x.tx := le_of_intCompare_gt ho.symm
            refine List.Pairwise.cons ?_ (ih zs2 hys hi)
            intro z hz
            have hz2 : z ∈ x :: ys := (insertPose_perm x ys zs2 hi).mem_iff.mp hz
            rcases List.mem_cons.mp hz2 with rfl | hzys
            · exact hyx
            · exact hy z hzys

/-- Insertion of a NaN-free element into a NaN-free list succeeds. -/
theorem insertPose_some (x : Isometry) :
    ∀ acc : List Isometry, f32IsNaN x.tx = false →
      (∀ p ∈ acc, f32IsNaN p.tx = false) → ∃ zs, insertPose x acc = some zs := by
  intro acc
  induction acc with
  | nil => exact fun _ _ => ⟨[x], rfl⟩
  | cons y ys ih =>
    intro hx hacc
    have hy : f32IsNaN y.tx = false := hacc y (List.mem_cons_self y ys)
    obtain ⟨zs2, hzs2⟩ := ih hx (fun p hp => hacc p (List.mem_cons_of_mem y hp))
    unfold insertPose
    rw [cmpX_some x y hx hy]
    cases intCompare (f32Key x.tx) (f32Key y.tx) with
    | lt => exact ⟨x :: y :: ys, rfl⟩
    | eq => exact ⟨y :: zs2, by rw [hzs2]; rfl⟩
    | gt => exact ⟨y :: zs2, by rw [hzs2]; rfl⟩

/-- Insertion into a nonempty list fails as soon as the inserted x is NaN. -/
theorem insertPose_none_left (x y : Isometry) (ys : List Isometry)
    (h : f32IsNaN x.tx = true) : insertPose x (y :: ys) = none := by
  unfold insertPose
  rw [cmpX_none_left x y h]

/-- Insertion fails as soon as the head of the target list has a NaN x. -/
theorem insertPose_none_right (x y : Isometry) (ys : List Isometry)
    (h : f32IsNaN y.tx = true) : insertPose x (y :: ys) = none := by
  unfold insertPose
  rw [cmpX_none_right x y h]

-- ===== Facts about the fallible sort =====

/-- A successful sort run permutes its input (together with the accumulator). -/
theorem sortAux_perm :
    ∀ (xs acc s : List Isometry), sortAux acc xs = some s → s.Perm (xs ++ acc) := by
  intro xs
  induction xs with
  | nil =>
    intro acc s h
    have h2 : some acc = some s := h
    injection h2 with h3
    subst h3
    exact List.Perm.refl _
  | cons x rest ih =>
    intro acc s h
    unfold sortAux at h
    cases hi : insertPose x acc with
    | none => rw [hi] at h; exact Option.noConfusion h
    | some acc2 =>
      rw [hi] at h
      have hperm := ih acc2 s h
      have hacc2 := insertPose_perm x acc acc2 hi
      exact hperm.trans ((List.Perm.append_left rest hacc2).trans List.perm_middle)

/-- A successful sort run starting from a sorted accumulator is sorted by
ascending key. -/
theorem sortAux_sorted :
    ∀ (xs acc s : List Isometry), List.Pairwise keyLE acc →
      sortAux acc xs = some s → List.Pairwise keyLE s := by
  intro xs
  induction xs with
  | nil =>
    intro acc s hs h
    have h2 : some acc = some s := h
    injection h2 with h3
    subst h3
    exact hs
  | cons x rest ih =>
    intro acc s hs h
    unfold sortAux at h
    cases hi : insertPose x acc with
    | none => rw [hi] at h; exact Option.noConfusion h
    | some acc2 =>
      rw [hi] at h
      exact ih acc2 s (insertPose_sorted x acc acc2 hs hi) h

/-- On NaN-free input the sort succeeds. -/
theorem sortAux_some :
    ∀ (xs acc : List Isometry), (∀ p ∈ acc, f32IsNaN p.tx = false) →
      (∀ p ∈ xs, f32IsNaN p.tx = false) → ∃ s, sortAux acc xs = some s := by
  intro xs
  induction xs with
  | nil => exact fun acc _ _ => ⟨acc, rfl⟩
  | cons x rest ih =>
    intro acc hacc hxs
    obtain ⟨acc2, hacc2⟩ :=
      insertPose_some x acc (hxs x (List.mem_cons_self x rest)) hacc
    have hacc2nan : ∀ p ∈ acc2, f32IsNaN p.tx = false := by
      intro p hp
      rcases List.mem_cons.mp ((insertPose_perm x acc acc2 hacc2).mem_iff.mp hp) with rfl | hpa
      · exact hxs p (List.mem_cons_self p rest)
      · exact hacc p hpa
    obtain ⟨s, hsrest⟩ := ih acc2 hacc2nan (fun p hp => hxs p (List.mem_cons_of_mem x hp))
    refine ⟨s, ?_⟩
    unfold sortAux
    rw [hacc2]
    exact hsrest

/-- Once the accumulator is nonempty and NaN-free, a NaN x anywhere in the rest
of the input makes the sort fail: its first comparison is undefined. -/
theorem sortAux_none_of_nan :
    ∀ (xs acc : List Isometry), acc ≠ [] → (∀ p ∈ acc, f32IsNaN p.tx = false) →
      (∃ p ∈ xs, f32IsNaN p.tx = true) → sortAux acc xs = none := by
  intro xs
  induction xs with
  | nil =>
    intro acc _ _ hex
    obtain ⟨p, hp, _⟩ := hex
    exact absurd hp (List.not_mem_nil p)
  | cons x rest ih =>
    intro acc hne hacc hex
    cases hx : f32IsNaN x.tx with
    | true =>
      cases acc with
      | nil => exact absurd rfl hne
      | cons a as =>
        unfold sortAux
        rw [insertPose_none_left x a as hx]
        rfl
    | false =>
      obtain ⟨acc2, hacc2⟩ := insertPose_some x acc hx hacc
      have hacc2nan : ∀ p ∈ acc2, f32IsNaN p.tx = false := by
        intro p hp
        rcases List.mem_cons.mp ((insertPose_perm x acc acc2 hacc2).mem_iff.mp hp) with rfl | hpa
        · exact hx
        · exact hacc p hpa
      have hacc2ne : acc2 ≠ [] := by
        intro hnil
        have hlen := (insertPose_perm x acc acc2 hacc2).length_eq
        rw [hnil] at hlen
        exact absurd hlen.symm (Nat.succ_ne_zero _)
      have hexrest : ∃ p ∈ rest, f32IsNaN p.tx = true := by
        obtain ⟨p, hp, hpt⟩ := hex
        rcases List.mem_cons.mp hp with rfl | hpr
        · rw [hx] at hpt; exact Bool.noConfusion hpt
        · exact ⟨p, hpr, hpt⟩
      unfold sortAux
      rw [hacc2]
      exact ih acc2 hacc2ne hacc2nan hexrest

-- ===== C1 =====

/-- The source's wrapping fold step agrees with the spec's `hash*33 + byte`
step modulo 2^32, for every accumulator and byte. -/
theorem djb2_eq_specFold (data : List Nat) :
    ∀ h : Nat, djb2_hash h data = data.foldl specFoldStep h := by
  induction data with
  | nil => exact fun _ => rfl
  | cons b bs ih =>
    intro h
    show djb2_hash (djb2Step h b) bs = bs.foldl specFoldStep (specFoldStep h b)
    rw [ih]
    have hstep : djb2Step h b = specFoldStep h b := by
      unfold djb2Step specFoldStep
      omega
    rw [hstep]

/-- The source's per-body djb2 fold equals the spec's reduction over the same
body order. -/
theorem hashBodies_eq_specHash (s : List Isometry) : hashBodies s = specHash s := by
  have hgen : ∀ (t : List Isometry) (init : Nat),
      t.foldl (fun h p => djb2_hash h (isometryBytes p)) init =
        t.foldl (fun h p => (isometryBytes p).foldl specFoldStep h) init := by
    intro t
    induction t with
    | nil => exact fun _ => rfl
    | cons p ps ih =>
      intro init
      show ps.foldl _ (djb2_hash init (isometryBytes p)) = ps.foldl _ _
      rw [ih, djb2_eq_specFold]
  exact hgen s 5381

/-- C1: whenever the sort succeeds, the fingerprint `update_hash` computes is
exactly the spec's fold — seed 5381, bodies taken in the ascending-x sorted
order (the sorted list is a permutation of the input, pairwise ascending in
the x key), each serialized as the 28-byte record and folded byte by byte via
`hash*33 + byte` mod 2^32. -/
theorem C1_fingerprint (l s : List Isometry) (h : sortPoses l = some s) :
    update_hash_value l = some (specHash s) ∧ s.Perm l ∧ List.Pairwise keyLE s := by
  refine ⟨?_, ?_, ?_⟩
  · unfold update_hash_value
    rw [h]
    show some (hashBodies s) = some (specHash s)
    rw [hashBodies_eq_specHash]
  · have hperm := sortAux_perm l [] s h
    rw [List.append_nil] at hperm
    exact hperm
  · exact sortAux_sorted l [] s List.Pairwise.nil h

/-- C1 witness: a concrete two-pose list whose sort succeeds. -/
theorem C1_witness :
    sortPoses [pose1, pose0] = some [pose0, pose1] ∧
    (update_hash_value [pose1, pose0] = some (specHash [pose0, pose1]) ∧
      ([pose0, pose1] : List Isometry).Perm [pose1, pose0] ∧
      List.Pairwise keyLE [pose0, pose1]) :=
  ⟨by decide, C1_fingerprint [pose1, pose0] [pose0, pose1] (by decide)⟩

-- ===== C6 =====

/-- C6 counterexample: the claim says any NaN x at hashing time is a fatal
failure; with a single body the sort performs no comparison at all, so a NaN
x silently produces a hash. -/
theorem C6_cex : (update_hash_value [nanPose]).isSome = true := by decide

/-- C6 (amended): whenever at least two bodies are present and any body's x is
NaN, the sort performs a comparison involving the NaN, which is a fatal,
reported failure — no hash is produced. -/
theorem C6_nan_fatal :
    ∀ l : List Isometry, 2 ≤ l.length → (∃ p ∈ l, f32IsNaN p.tx = true) →
      update_hash_value l = none := by
  intro l h2 hnan
  cases l with
  | nil => simp at h2
  | cons a l2 =>
    cases l2 with
    | nil => simp at h2
    | cons b t =>
      have hmain : sortAux [a] (b :: t) = none := by
        cases ha : f32IsNaN a.tx with
        | true =>
          show (insertPose b [a]).bind _ = none
          rw [insertPose_none_right b a [] ha]
          rfl
        | false =>
          apply sortAux_none_of_nan (b :: t) [a] (by intro hfalse; exact List.noConfusion hfalse)
          · intro p hp
            rcases List.mem_cons.mp hp with rfl | hnil
            · exact ha
            · exact absurd hnil (List.not_mem_nil p)
          · obtain ⟨p, hp, hpt⟩ := hnan
            rcases List.mem_cons.mp hp with rfl | hpr
            · rw [ha] at hpt; exact Bool.noConfusion hpt
            · exact ⟨p, hpr, hpt⟩
      show (sortAux [a] (b :: t)).map hashBodies = none
      rw [hmain]
      rfl

/-- C6 witness: a two-body world with a NaN x aborts without a hash. -/
theorem C6_witness :
    2 ≤ ([nanPose, pose0] : List Isometry).length ∧
    update_hash_value [nanPose, pose0] = none :=
  ⟨by decide, C6_nan_fatal [nanPose, pose0] (by decide) ⟨nanPose, by decide, by decide⟩⟩

-- ===== C4 =====

/-- A list sorted by ascending key whose keys are pairwise distinct is sorted
by strictly ascending key. -/
theorem sorted_strict_of_distinct_keys (s : List Isometry)
    (hle : List.Pairwise keyLE s)
    (hne : List.Pairwise (fun a b => f32Key a.tx ≠ f32Key b.tx) s) :
    List.Pairwise keyLT s :=
  (hle.and hne).imp fun h => lt_of_le_of_ne h.1 h.2

instance : IsAntisymm Isometry keyLT :=
  ⟨fun _ _ h1 h2 => absurd h2 (not_lt.mpr (le_of_lt h1))⟩

/-- C4 counterexample: the claim must hold "in particular when two bodies share
a bit-identical x-coordinate"; it does not. Two poses with the same x bits but
different y hash differently after a swap, because the stable sort keeps the
tied pair in input order. -/
theorem C4_cex :
    ([pose0, tiePose] : List Isometry).Perm [tiePose, pose0] ∧
    pose0.tx = tiePose.tx ∧
    update_hash_value [pose0, tiePose] ≠ update_hash_value [tiePose, pose0] := by
  exact ⟨by decide, rfl, by decide⟩

/-- C4 (amended): for every NaN-free set of body poses whose x comparison keys
are pairwise distinct, any permutation of the input iteration order yields the
same hash: the explicit ascending-x sort neutralizes upstream iteration-order
non-determinism except exactly at bit-identical (equal-key) x ties. -/
theorem C4_sort_neutralizes (l l2 : List Isometry) (hperm : l.Perm l2)
    (hkeys : List.Pairwise (fun a b => f32Key a.tx ≠ f32Key b.tx) l)
    (hnan : ∀ p ∈ l, f32IsNaN p.tx = false) :
    update_hash_value l = update_hash_value l2 := by
  have hnan2 : ∀ p ∈ l2, f32IsNaN p.tx = false := fun p hp => hnan p (hperm.mem_iff.mpr hp)
  obtain ⟨s1, hs1⟩ := sortAux_some l [] (fun p hp => absurd hp (List.not_mem_nil p)) hnan
  obtain ⟨s2, hs2⟩ := sortAux_some l2 [] (fun p hp => absurd hp (List.not_mem_nil p)) hnan2
  have hp1 : s1.Perm l := by
    have h := sortAux_perm l [] s1 hs1
    rwa [List.append_nil] at h
  have hp2 : s2.Perm l2 := by
    have h := sortAux_perm l2 [] s2 hs2
    rwa [List.append_nil] at h
  have hk1 : List.Pairwise (fun a b => f32Key a.tx ≠ f32Key b.tx) s1 :=
    (hp1.pairwise_iff fun h => h.symm).mpr hkeys
  have hk2 : List.Pairwise (fun a b => f32Key a.tx ≠ f32Key b.tx) s2 :=
    ((hp2.trans hperm.symm).pairwise_iff fun h => h.symm).mpr hkeys
  have hsort1 := sortAux_sorted l [] s1 List.Pairwise.nil hs1
  have hsort2 := sortAux_sorted l2 [] s2 List.Pairwise.nil hs2
  have heq : s1 = s2 := by
    apply List.eq_of_perm_of_sorted (r := keyLT)
    · exact hp1.trans (hperm.trans hp2.symm)
    · exact sorted_strict_of_distinct_keys s1 hsort1 hk1
    · exact sorted_strict_of_distinct_keys s2 hsort2 hk2
  show (sortAux [] l).map hashBodies = (sortAux [] l2).map hashBodies
  rw [hs1, hs2, heq]

/-- C4 witness: a concrete swap of two distinct-key NaN-free poses leaves the
hash unchanged. -/
theorem C4_witness :
    ([pose1, pose0] : List Isometry).Perm [pose0, pose1] ∧
    update_hash_value [pose1, pose0] = update_hash_value [pose0, pose1] :=
  ⟨by decide,
    C4_sort_neutralizes [pose1, pose0] [pose0, pose1] (by decide) (by decide) (by decide)⟩

end Harness
